import Mathlib

/-!
Verification development for the fire-pmaas authorization core.

The Go source is shallowly embedded: the relational store (tables `users`,
`roles`, `user_roles`, `user_sessions` with their PRIMARY KEY / UNIQUE
constraints) is modelled as an explicit `Db` state, SQL statements become
pure functions over that state, and the HTTP middleware chain becomes
functions from the request's inputs (cookies, the OIDC verifier outcome,
the store state) to an explicit middleware step (`next` with an optional
context user, or `respond` with an HTTP status).  Machine strings are
modelled via their character lists (the permission / role vocabulary is
ASCII, so Go's bytewise `strings` functions coincide with the character
level ones used here).
-/

namespace FirePmaas

/-! ### Go `strings` helpers (bytewise, modelled on character lists) -/

/-- Go `strings.HasPrefix s pre`. -/
def goStartsWith (s pre : String) : Bool :=
  pre.data.isPrefixOf s.data

/-- Go `strings.HasSuffix s suf`. -/
def goEndsWith (s suf : String) : Bool :=
  suf.data.isSuffixOf s.data

/-- Go `strings.TrimSuffix s suf`. -/
def goTrimSuffix (s suf : String) : String :=
  if goEndsWith s suf then ⟨s.data.take (s.data.length - suf.data.length)⟩ else s

/-! ### Data model (`pkg/models`, rows of the seeded schema) -/

/-- `models.Role` / a row of the `roles` table (id is the PRIMARY KEY,
`name` is UNIQUE by the schema). -/
structure Role where
  id : Int
  name : String
  displayName : String
  permissions : List String
  deriving DecidableEq

/-- A row of the `users` table (without the in-memory `Roles` field). -/
structure UserRec where
  id : Int
  keycloakId : Option String
  username : String
  email : String
  firstName : String
  lastName : String
  emailVerified : Bool
  status : String
  deriving DecidableEq

/-- `models.User`: the in-memory user, i.e. a `users` row together with its
loaded `Roles` slice. -/
structure User where
  id : Int
  keycloakId : Option String
  username : String
  email : String
  firstName : String
  lastName : String
  emailVerified : Bool
  status : String
  roles : List Role
  deriving DecidableEq

/-- Pairing a `users` row with a loaded role slice (what `GetUserByID`
returns after `user.Roles, err = GetUserRoles(user.ID)`). -/
def UserRec.withRoles (u : UserRec) (rs : List Role) : User :=
  { id := u.id, keycloakId := u.keycloakId, username := u.username,
    email := u.email, firstName := u.firstName, lastName := u.lastName,
    emailVerified := u.emailVerified, status := u.status, roles := rs }

/-- A row of the `user_roles` junction table (`UNIQUE(user_id, role_id)`
in the schema). -/
structure Assignment where
  userId : Int
  roleId : Int
  assignedBy : Option Int
  deriving DecidableEq

/-- A row of the `user_sessions` table (`session_token` is UNIQUE).
Timestamps are modelled as integers. -/
structure SessionRec where
  id : Int
  userId : Int
  token : String
  expiresAt : Int
  deriving DecidableEq

/-- The relational store: the four tables the authorization core touches,
plus the `users` id sequence. -/
structure Db where
  users : List UserRec
  nextUserId : Int
  roles : List Role
  userRoles : List Assignment
  sessions : List SessionRec
  deriving DecidableEq

/-- Typed database errors: `notFound` models `sql.ErrNoRows`,
`uniqueViolation` a violated UNIQUE constraint (Postgres class 23505),
`fkViolation` a violated foreign key. -/
inductive DbErr where
  | notFound
  | uniqueViolation
  | fkViolation
  deriving DecidableEq

/-! ### Permission model (`models.User.HasPermission`, `HasRole`) -/

/-- `User.HasPermission` from `pkg/models`: exact match, or a held
permission ending in `.*` whose `strings.TrimSuffix(perm, ".*")` is a
`strings.HasPrefix` of the required permission. -/
def User.HasPermission (u : User) (permission : String) : Bool :=
  u.roles.any fun role =>
    role.permissions.any fun perm =>
      perm == permission ||
        (goEndsWith perm ".*" && goStartsWith permission (goTrimSuffix perm ".*"))

/-- The permission predicate as the specification words it: a wildcard
grant `r.*` matches exactly the required permissions that start with the
prefix `r.` (the literal prefix up to and including the first dot).  Kept
separate from `User.HasPermission` to compare the two. -/
def specHasPermission (u : User) (p : String) : Bool :=
  u.roles.any fun role =>
    role.permissions.any fun perm =>
      perm == p ||
        (goEndsWith perm ".*" && goStartsWith p (goTrimSuffix perm ".*" ++ "."))

/-- `User.HasRole` from `pkg/models`. -/
def User.HasRole (u : User) (roleName : String) : Bool :=
  u.roles.any fun role => role.name == roleName

/-! ### Role store (`pkg/models` SQL helpers) -/

/-- `models.GetRoleByName`: `SELECT ... FROM roles WHERE name = $1` via
`QueryRow` (first matching row, `sql.ErrNoRows` when none). -/
def GetRoleByName (db : Db) (name : String) : Except DbErr Role :=
  match db.roles.find? (fun r => r.name == name) with
  | some r => .ok r
  | none => .error .notFound

/-- `models.GetUserRoles`: the join
`roles r JOIN user_roles ur ON r.id = ur.role_id WHERE ur.user_id = $1
ORDER BY r.name`. -/
def GetUserRoles (db : Db) (userId : Int) : List Role :=
  (((db.userRoles.filter (fun a => a.userId == userId)).flatMap
      (fun a => db.roles.filter (fun r => r.id == a.roleId))).mergeSort
    (fun r₁ r₂ => r₁.name ≤ r₂.name))

/-- `models.AssignRole`: `INSERT INTO user_roles (user_id, role_id,
assigned_by) VALUES ...`; fails on the `UNIQUE(user_id, role_id)`
constraint when the pair exists and on a dangling foreign key. -/
def AssignRole (db : Db) (userId roleId : Int) (assignedBy : Option Int) :
    Except DbErr Db :=
  if db.userRoles.any (fun a => a.userId == userId && a.roleId == roleId) then
    .error .uniqueViolation
  else if db.users.any (fun u => u.id == userId) &&
      db.roles.any (fun r => r.id == roleId) then
    .ok { db with userRoles := db.userRoles ++ [⟨userId, roleId, assignedBy⟩] }
  else
    .error .fkViolation

/-- `models.RemoveRole`: `DELETE FROM user_roles WHERE user_id = $1 AND
role_id = $2`; a DELETE matching no row is still a success, so the
operation is total on the state. -/
def RemoveRole (db : Db) (userId roleId : Int) : Db :=
  { db with
    userRoles :=
      db.userRoles.filter (fun a => !(a.userId == userId && a.roleId == roleId)) }

/-- `models.CreateUser`: `INSERT INTO users ... RETURNING id`; fails on the
UNIQUE constraints of `username`, `email` and `keycloak_id` (multiple NULL
`keycloak_id` values are allowed).  On success returns the state and the id
the sequence assigned (written back into `user.ID` by the Go code). -/
def CreateUser (db : Db) (u : UserRec) : Except DbErr (Db × Int) :=
  if db.users.any (fun v =>
      v.username == u.username || v.email == u.email ||
        (u.keycloakId.isSome && v.keycloakId == u.keycloakId)) then
    .error .uniqueViolation
  else
    .ok ({ db with
            users := db.users ++ [{ u with id := db.nextUserId }],
            nextUserId := db.nextUserId + 1 },
          db.nextUserId)

/-- `models.GetUserByID`: row lookup by id, then `GetUserRoles` populates
the `Roles` field. -/
def GetUserByID (db : Db) (id : Int) : Except DbErr User :=
  match db.users.find? (fun u => u.id == id) with
  | some u => .ok (u.withRoles (GetUserRoles db id))
  | none => .error .notFound

/-- `models.GetUserByKeycloakID`: `WHERE keycloak_id = $1` (SQL equality,
so NULL `keycloak_id` rows never match), then roles are loaded. -/
def GetUserByKeycloakID (db : Db) (keycloakId : String) : Except DbErr User :=
  match db.users.find? (fun u => u.keycloakId == some keycloakId) with
  | some u => .ok (u.withRoles (GetUserRoles db u.id))
  | none => .error .notFound

/-- `models.GetUserSession`: `WHERE session_token = $1 AND expires_at >
NOW()`; an expired or unknown token yields `sql.ErrNoRows`. -/
def GetUserSession (db : Db) (now : Int) (token : String) :
    Except DbErr SessionRec :=
  match db.sessions.find? (fun s => s.token == token && decide (now < s.expiresAt)) with
  | some s => .ok s
  | none => .error .notFound

/-! ### Identity resolver (`assignRolesFromKeycloak` in `pkg/middleware`) -/

/-- The hardcoded Keycloak-realm-role to application-role mapping table
(identity on the four fixed role names). -/
def roleMapping : List (String × String) :=
  [("admin", "admin"), ("property_manager", "property_manager"),
   ("tenant", "tenant"), ("viewer", "viewer")]

/-- The four application role names (the values of `roleMapping`). -/
def appRoleNames : List String :=
  ["admin", "property_manager", "tenant", "viewer"]

/-- One iteration of the removal loop: look the application role up by
name and, when found, remove its assignment from the user (a failed
lookup is logged and skipped in the Go code). -/
def removeRoleByName (db : Db) (userId : Int) (n : String) : Db :=
  match GetRoleByName db n with
  | .ok r => RemoveRole db userId r.id
  | .error _ => db

/-- The removal phase of `assignRolesFromKeycloak`: remove all four
possible role assignments.  The Go code ranges over the map's values in
unspecified order; the removals act on distinct keys and commute, so a
fixed order is a faithful model of the reachable final state. -/
def removeAllMappedRoles (db : Db) (userId : Int) : Db :=
  roleMapping.foldl (fun d pr => removeRoleByName d userId pr.2) db

/-- One iteration of the assignment loop of `assignRolesFromKeycloak`:
map the Keycloak role through `roleMapping`, look the application role up,
assign it, and count the successful assignments (errors are logged and
skipped). -/
def assignRoleStep (userId : Int) (s : Db × Nat) (kcRole : String) : Db × Nat :=
  match roleMapping.lookup kcRole with
  | some appRole =>
    match GetRoleByName s.1 appRole with
    | .ok r =>
      match AssignRole s.1 userId r.id none with
      | .ok db' => (db', s.2 + 1)
      | .error _ => s
    | .error _ => s
  | none => s

/-- The assignment phase of `assignRolesFromKeycloak` over the token's
realm-role list, returning the state and `assignedCount`. -/
def assignMappedRoles (db : Db) (userId : Int) (kcRoles : List String) :
    Db × Nat :=
  kcRoles.foldl (assignRoleStep userId) (db, 0)

/-- `assignRolesFromKeycloak` from `pkg/middleware`: full removal phase,
assignment phase, then the default `tenant` role when `assignedCount`
stayed zero (again skipping store errors). -/
def assignRolesFromKeycloak (db : Db) (userId : Int) (kcRoles : List String) :
    Db :=
  if (assignMappedRoles (removeAllMappedRoles db userId) userId kcRoles).2
      == 0 then
    match GetRoleByName
        (assignMappedRoles (removeAllMappedRoles db userId) userId kcRoles).1
        "tenant" with
    | .ok r =>
      match AssignRole
          (assignMappedRoles (removeAllMappedRoles db userId) userId
            kcRoles).1
          userId r.id none with
      | .ok db3 => db3
      | .error _ =>
        (assignMappedRoles (removeAllMappedRoles db userId) userId kcRoles).1
    | .error _ =>
      (assignMappedRoles (removeAllMappedRoles db userId) userId kcRoles).1
  else (assignMappedRoles (removeAllMappedRoles db userId) userId kcRoles).1

/-! ### Request authenticator and guards (`pkg/middleware`) -/

/-- The claims the middleware extracts from a verified ID token.  The Go
code digs the realm-role list out of the nested `realm_access` claim;
here it is carried directly. -/
structure KeycloakClaims where
  sub : String
  email : String
  emailVerified : Bool
  name : String
  preferredUsername : String
  givenName : String
  familyName : String
  realmRoles : List String

/-- `models.NullString`: the empty string becomes SQL NULL. -/
def nullString (s : String) : Option String :=
  if s == "" then none else some s

/-- Outcome of one middleware layer on a request: either the downstream
handler is invoked (with the user attached to the context, if any), or a
response with the given HTTP status is written and the chain stops. -/
inductive MwStep (α : Type) where
  | next (ctxUser : Option α)
  | respond (status : Nat)
  deriving DecidableEq

/-- The in-memory `models.User` literal that `LoadUserFromToken` builds
for an unknown subject before calling `CreateUser` (its `ID` field is the
Go zero value `0` and no roles are loaded). -/
def newUserFromClaims (claims : KeycloakClaims) : UserRec :=
  { id := 0, keycloakId := nullString claims.sub,
    username := claims.preferredUsername, email := claims.email,
    firstName := claims.givenName, lastName := claims.familyName,
    emailVerified := claims.emailVerified, status := "active" }

/-- `LoadUserFromToken` from `pkg/middleware`.  `cookie` is the `id_token`
cookie (`none` when `r.Cookie` errors); `verify` models the OIDC
verification plus claims extraction (`none` on any failure).  Returns the
middleware outcome and the store state after the login's side effects. -/
def LoadUserFromToken (db : Db) (cookie : Option String)
    (verify : String → Option KeycloakClaims) : MwStep User × Db :=
  match cookie with
  | some v =>
    if v ≠ "" then
      match verify v with
      | some claims =>
        match GetUserByKeycloakID db claims.sub with
        | .ok user0 =>
          let db2 := assignRolesFromKeycloak db user0.id claims.realmRoles
          match (GetUserByID db2 user0.id).toOption with
          | some user => (.next (some user), db2)
          | none => (.next none, db2)
        | .error _ =>
          match CreateUser db (newUserFromClaims claims) with
          | .ok (db1, uid) =>
            let db2 := assignRolesFromKeycloak db1 uid claims.realmRoles
            match (GetUserByID db2 uid).toOption with
            | some user => (.next (some user), db2)
            | none => (.next none, db2)
          | .error _ =>
            (.next (some ((newUserFromClaims claims).withRoles [])), db)
      | none => (.next none, db)
    else (.next none, db)
  | none => (.next none, db)

/-- `SessionAuth` from `pkg/middleware`: resolve the `session_token`
cookie through `GetUserSession`, then load the user; on any failure fall
through to the downstream handler with no user attached. -/
def SessionAuth (db : Db) (now : Int) (cookie : Option String) : MwStep User :=
  match cookie with
  | some v =>
    if v ≠ "" then
      match GetUserSession db now v with
      | .ok session =>
        match GetUserByID db session.userId with
        | .ok user => .next (some user)
        | .error _ => .next none
      | .error _ => .next none
    else .next none
  | none => .next none

/-- `RequirePermission` from `pkg/middleware`. -/
def RequirePermission (permission : String) (ctxUser : Option User) :
    MwStep User :=
  match ctxUser with
  | none => .respond 401
  | some u =>
    if u.HasPermission permission then .next (some u) else .respond 403

/-- `RequireRole` from `pkg/middleware`. -/
def RequireRole (roleName : String) (ctxUser : Option User) : MwStep User :=
  match ctxUser with
  | none => .respond 401
  | some u =>
    if u.HasRole roleName then .next (some u) else .respond 403

/-- `RequireAnyRole` from `pkg/middleware` (the loop with `break` is the
`any` of `HasRole` over the listed names). -/
def RequireAnyRole (roleNames : List String) (ctxUser : Option User) :
    MwStep User :=
  match ctxUser with
  | none => .respond 401
  | some u =>
    if roleNames.any (fun n => u.HasRole n) then .next (some u)
    else .respond 403

/-! ### Derived predicates used in the statements -/

/-- The `(user, role)` pair is assigned in the store. -/
def HasAssignment (db : Db) (userId roleId : Int) : Prop :=
  ∃ a ∈ db.userRoles, a.userId = userId ∧ a.roleId = roleId

/-- The `roles` table respects its PRIMARY KEY and `UNIQUE(name)`
constraints. -/
def RolesWf (db : Db) : Prop :=
  db.roles.Pairwise (fun a b => a.id ≠ b.id ∧ a.name ≠ b.name)

/-- The four fixed application roles are seeded in the `roles` table. -/
def RolesSeeded (db : Db) : Prop :=
  ∀ n ∈ appRoleNames, ∃ r ∈ db.roles, r.name = n

/-- The user id exists in the `users` table (foreign-key premise of
`AssignRole`). -/
def UserIdExists (db : Db) (userId : Int) : Prop :=
  ∃ u ∈ db.users, u.id = userId

/-- `session_token` is UNIQUE in the `user_sessions` table. -/
def SessionTokensUnique (db : Db) : Prop :=
  db.sessions.Pairwise (fun a b => a.token ≠ b.token)

/-- The id of the role a name resolves to, if any. -/
def nameIdOf (db : Db) (n : String) : Option Int :=
  (GetRoleByName db n).toOption.map (fun r => r.id)

/-- The sub-list of the four application role names asserted by the
realm-role list — the set `S` the sync must reproduce. -/
def mappedAppRoles (kcRoles : List String) : List String :=
  appRoleNames.filter (fun n => kcRoles.contains n)

/-- A user holding exactly the wildcard grant `users.*`, for the
permission-matching statements. -/
def wildcardUser : User :=
  { id := 1, keycloakId := none, username := "wild", email := "w@x",
    firstName := "W", lastName := "U", emailVerified := true,
    status := "active",
    roles := [{ id := 10, name := "custom", displayName := "Custom",
                permissions := ["users.*"] }] }

instance (db : Db) (userId roleId : Int) :
    Decidable (HasAssignment db userId roleId) := by
  unfold HasAssignment; exact inferInstance

instance (db : Db) : Decidable (RolesWf db) := by
  unfold RolesWf; exact inferInstance

instance (db : Db) : Decidable (RolesSeeded db) := by
  unfold RolesSeeded; exact inferInstance

instance (db : Db) (userId : Int) : Decidable (UserIdExists db userId) := by
  unfold UserIdExists; exact inferInstance

instance (db : Db) : Decidable (SessionTokensUnique db) := by
  unfold SessionTokensUnique; exact inferInstance

/-- A store with no rows at all. -/
def emptyDb : Db :=
  { users := [], nextUserId := 1, roles := [], userRoles := [], sessions := [] }

/-- A store holding one user and one role with no assignment yet. -/
def conflictDb : Db :=
  { users := [{ id := 1, keycloakId := none, username := "alice",
                email := "alice@x", firstName := "A", lastName := "L",
                emailVerified := true, status := "active" }],
    nextUserId := 2,
    roles := [{ id := 5, name := "tenant", displayName := "Tenant",
                permissions := [] }],
    userRoles := [], sessions := [] }

/-- The `tenant` role row of `conflictDb`. -/
def conflictRole : Role :=
  { id := 5, name := "tenant", displayName := "Tenant", permissions := [] }

/-- `conflictDb` after a successful `AssignRole 1 5`. -/
def conflictDb' : Db :=
  { conflictDb with userRoles := [⟨1, 5, none⟩] }

/-- A store holding a single already-expired session. -/
def expiredSessionDb : Db :=
  { users := [], nextUserId := 1, roles := [], userRoles := [],
    sessions := [{ id := 1, userId := 7, token := "tok", expiresAt := 5 }] }

/-- Verified-token claims for a subject unknown to the store. -/
def stubClaims : KeycloakClaims :=
  { sub := "kc-new", email := "bob@new", emailVerified := true,
    name := "Bob New", preferredUsername := "bob", givenName := "Bob",
    familyName := "New", realmRoles := ["admin"] }

/-- A store where `stubClaims.sub` is unknown but the preferred username
`bob` is already taken, so `CreateUser` hits a UNIQUE violation. -/
def clashDb : Db :=
  { users := [{ id := 1, keycloakId := some "kc-old", username := "bob",
                email := "bob@old", firstName := "B", lastName := "O",
                emailVerified := false, status := "active" }],
    nextUserId := 2, roles := [], userRoles := [], sessions := [] }

/-- The four seeded application roles (small permission sets suffice for
the witnesses). -/
def seededRoles : List Role :=
  [{ id := 1, name := "admin", displayName := "Administrator",
     permissions := ["users.create"] },
   { id := 2, name := "property_manager", displayName := "Property Manager",
     permissions := ["properties.read"] },
   { id := 3, name := "tenant", displayName := "Tenant",
     permissions := ["profile.read"] },
   { id := 4, name := "viewer", displayName := "Viewer",
     permissions := ["properties.read"] }]

/-- A store with the seeded roles, a fifth custom role, and a user who —
from a prior login — still holds `tenant` and the custom role. -/
def syncDb : Db :=
  { users := [{ id := 7, keycloakId := some "kc7", username := "carol",
                email := "carol@x", firstName := "C", lastName := "R",
                emailVerified := true, status := "active" }],
    nextUserId := 8,
    roles := seededRoles ++
      [{ id := 9, name := "super", displayName := "Super", permissions := [] }],
    userRoles := [⟨7, 3, none⟩, ⟨7, 9, none⟩],
    sessions := [] }

/-! ## Lemmas and claim theorems -/

lemma string_data_ext {a b : String} (h : a.data = b.data) : a = b :=
  congrArg String.mk h

lemma goEndsWith_iff {s suf : String} :
    goEndsWith s suf = true ↔ suf.data <:+ s.data := by
  simp [goEndsWith, List.isSuffixOf_iff_suffix]

lemma goEndsWith_append (r suf : String) : goEndsWith (r ++ suf) suf = true := by
  rw [goEndsWith_iff, String.data_append]
  exact ⟨r.data, rfl⟩

lemma goTrimSuffix_append_cancel (r suf : String) :
    goTrimSuffix (r ++ suf) suf = r := by
  rw [goTrimSuffix, if_pos (goEndsWith_append r suf)]
  apply congrArg String.mk
  rw [String.data_append, List.length_append, Nat.add_sub_cancel,
    List.take_left]

lemma goTrimSuffix_append_self {s suf : String}
    (h : goEndsWith s suf = true) : goTrimSuffix s suf ++ suf = s := by
  obtain ⟨t, ht⟩ := goEndsWith_iff.mp h
  have hs : s = String.mk t ++ suf := by
    apply string_data_ext
    rw [String.data_append]
    exact ht.symm
  rw [hs, goTrimSuffix_append_cancel]

/-- The inner disjunct of `HasPermission`, rephrased with an explicit
wildcard stem. -/
lemma hasPermission_inner_iff (perm p : String) :
    (perm == p ||
        (goEndsWith perm ".*" && goStartsWith p (goTrimSuffix perm ".*")))
        = true ↔
      perm = p ∨ ∃ r : String, perm = r ++ ".*" ∧ goStartsWith p r = true := by
  rw [Bool.or_eq_true, Bool.and_eq_true, beq_iff_eq]
  constructor
  · rintro (h | ⟨hsuf, hpre⟩)
    · exact Or.inl h
    · exact Or.inr ⟨goTrimSuffix perm ".*",
        (goTrimSuffix_append_self hsuf).symm, hpre⟩
  · rintro (h | ⟨r, hr, hpre⟩)
    · exact Or.inl h
    · refine Or.inr ⟨hr ▸ goEndsWith_append r ".*", ?_⟩
      rw [hr, goTrimSuffix_append_cancel]
      exact hpre

/-- C1 is refuted on the code: a user holding only the wildcard grant
`users.*` is granted the permission `userspoof.read` by
`User.HasPermission`, although the claim's matching rule (an exact match,
or a held wildcard `r.*` with the required permission starting with the
prefix `r.`, dot included) rejects it. -/
theorem C1_counterexample :
    User.HasPermission wildcardUser "userspoof.read" = true ∧
      ¬ (∃ role ∈ wildcardUser.roles, ∃ perm ∈ role.permissions,
          perm = "userspoof.read" ∨
            ∃ r : String, perm = r ++ ".*" ∧
              goStartsWith "userspoof.read" (r ++ ".") = true) := by
  refine ⟨by decide, ?_⟩
  rintro ⟨role, hrole, perm, hperm, hbad⟩
  simp only [wildcardUser, List.mem_singleton] at hrole
  subst hrole
  simp only [List.mem_singleton] at hperm
  subst hperm
  rcases hbad with h | ⟨r, hr, hpre⟩
  · exact absurd h (by decide)
  · have h2 := congrArg (fun s => goTrimSuffix s ".*") hr
    simp only [goTrimSuffix_append_cancel] at h2
    have h3 : r = "users" := h2.symm.trans (by decide)
    subst h3
    exact absurd hpre (by decide)

/-- C1 (amended): `HasPermission p` is true iff some assigned role holds
`p` as an exact string, or holds a wildcard `r.*` such that `p` starts
with the literal stem `r` — the grant with the `.*` suffix removed and no
trailing dot required, so `users.*` also matches e.g. `userspoof.read`.
The claim's concrete examples still hold: holding `users.*` makes
`HasPermission "users.create"` true and makes both
`HasPermission "properties.create"` and `HasPermission
"admin.users.delete"` false. -/
theorem C1_hasPermission_amended :
    (∀ (u : User) (p : String),
        User.HasPermission u p = true ↔
          ∃ role ∈ u.roles, ∃ perm ∈ role.permissions,
            perm = p ∨
              ∃ r : String, perm = r ++ ".*" ∧ goStartsWith p r = true) ∧
      User.HasPermission wildcardUser "users.create" = true ∧
      User.HasPermission wildcardUser "properties.create" = false ∧
      User.HasPermission wildcardUser "admin.users.delete" = false := by
  refine ⟨fun u p => ?_, by decide, by decide, by decide⟩
  simp only [User.HasPermission, List.any_eq_true, hasPermission_inner_iff]

/-- C1 witness: the amended rule evaluated at the wildcard holder. -/
theorem C1_amended_witness :
    User.HasPermission wildcardUser "users.create" = true :=
  C1_hasPermission_amended.2.1

/-- C4: each access guard responds 401 when no user is attached to the
request context, responds 403 when a user is attached but its criterion
fails (`HasPermission perm` false, `HasRole role` false, or `HasRole`
false on every listed name, respectively), and otherwise invokes the
downstream handler with the context user unchanged.  In the `MwStep`
encoding a `respond` outcome means the downstream handler is not invoked,
and the guards are pure functions of the attached user. -/
theorem C4_guard_dispatch :
    (∀ perm : String,
        RequirePermission perm none = .respond 401 ∧
          ∀ u : User,
            (u.HasPermission perm = false →
              RequirePermission perm (some u) = .respond 403) ∧
            (u.HasPermission perm = true →
              RequirePermission perm (some u) = .next (some u))) ∧
      (∀ roleName : String,
          RequireRole roleName none = .respond 401 ∧
            ∀ u : User,
              (u.HasRole roleName = false →
                RequireRole roleName (some u) = .respond 403) ∧
              (u.HasRole roleName = true →
                RequireRole roleName (some u) = .next (some u))) ∧
      (∀ roleNames : List String,
          RequireAnyRole roleNames none = .respond 401 ∧
            ∀ u : User,
              ((∀ n ∈ roleNames, u.HasRole n = false) →
                RequireAnyRole roleNames (some u) = .respond 403) ∧
              ((∃ n ∈ roleNames, u.HasRole n = true) →
                RequireAnyRole roleNames (some u) = .next (some u))) := by
  refine ⟨fun perm => ⟨rfl, fun u => ⟨fun h => ?_, fun h => ?_⟩⟩,
    fun roleName => ⟨rfl, fun u => ⟨fun h => ?_, fun h => ?_⟩⟩,
    fun roleNames => ⟨rfl, fun u => ⟨fun h => ?_, fun h => ?_⟩⟩⟩
  · simp [RequirePermission, h]
  · simp [RequirePermission, h]
  · simp [RequireRole, h]
  · simp [RequireRole, h]
  · have hany : roleNames.any (fun n => u.HasRole n) = false := by
      rw [List.any_eq_false]
      intro n hn
      simp [h n hn]
    simp [RequireAnyRole, hany]
  · have hany : roleNames.any (fun n => u.HasRole n) = true :=
      List.any_eq_true.mpr h
    simp [RequireAnyRole, hany]

/-- C4 witness: the four dispatch outcomes at concrete inputs. -/
theorem C4_guard_dispatch_witness :
    RequirePermission "users.read" none = .respond 401 ∧
      RequirePermission "users.create" (some wildcardUser) =
        .next (some wildcardUser) ∧
      RequireRole "admin" (some wildcardUser) = .respond 403 ∧
      RequireAnyRole ["admin", "custom"] (some wildcardUser) =
        .next (some wildcardUser) :=
  ⟨(C4_guard_dispatch.1 "users.read").1,
    ((C4_guard_dispatch.1 "users.create").2 wildcardUser).2 (by decide),
    ((C4_guard_dispatch.2.1 "admin").2 wildcardUser).1 (by decide),
    ((C4_guard_dispatch.2.2 ["admin", "custom"]).2 wildcardUser).2
      ⟨"custom", by decide, by decide⟩⟩

/-- C5: when the bearer credential is absent, empty, or fails
verification, `LoadUserFromToken` invokes the downstream handler with no
user attached and leaves the store untouched; when the session token is
absent, empty, or does not resolve through `GetUserSession`, `SessionAuth`
likewise attaches no user; and neither authenticator ever writes a
response itself — for every input the outcome is `next`, never
`respond`. -/
theorem C5_authenticators_degrade_silently :
    (∀ (db : Db) (cookie : Option String)
        (verify : String → Option KeycloakClaims),
        (cookie = none ∨ cookie = some "" ∨
            ∃ v, cookie = some v ∧ verify v = none) →
          LoadUserFromToken db cookie verify = (.next none, db)) ∧
      (∀ (db : Db) (cookie : Option String)
          (verify : String → Option KeycloakClaims) (status : Nat),
          (LoadUserFromToken db cookie verify).1 ≠ .respond status) ∧
      (∀ (db : Db) (now : Int) (cookie : Option String),
          (cookie = none ∨ cookie = some "" ∨
              ∃ v, cookie = some v ∧
                GetUserSession db now v = .error .notFound) →
            SessionAuth db now cookie = .next none) ∧
      (∀ (db : Db) (now : Int) (cookie : Option String) (status : Nat),
          SessionAuth db now cookie ≠ .respond status) := by
  refine ⟨?_, ?_, ?_, ?_⟩
  · rintro db cookie verify (rfl | rfl | ⟨v, rfl, hv⟩)
    · rfl
    · simp [LoadUserFromToken]
    · by_cases hv0 : v = ""
      · subst hv0; simp [LoadUserFromToken]
      · simp [LoadUserFromToken, hv0, hv]
  · intro db cookie verify status
    cases cookie with
    | none => simp [LoadUserFromToken]
    | some v =>
      simp only [LoadUserFromToken]
      repeat' split
      all_goals simp
  · rintro db now cookie (rfl | rfl | ⟨v, rfl, hv⟩)
    · rfl
    · simp [SessionAuth]
    · by_cases hv0 : v = ""
      · subst hv0; simp [SessionAuth]
      · simp [SessionAuth, hv0, hv]
  · intro db now cookie status
    cases cookie with
    | none => simp [SessionAuth]
    | some v =>
      simp only [SessionAuth]
      repeat' split
      all_goals simp

/-- C5 witness: an empty bearer cookie and an absent session cookie both
pass through unauthenticated. -/
theorem C5_witness :
    LoadUserFromToken emptyDb (some "") (fun _ => some stubClaims) =
        (.next none, emptyDb) ∧
      SessionAuth expiredSessionDb 10 none = .next none :=
  ⟨C5_authenticators_degrade_silently.1 emptyDb (some "")
      (fun _ => some stubClaims) (Or.inr (Or.inl rfl)),
    C5_authenticators_degrade_silently.2.2.1 expiredSessionDb 10 none
      (Or.inl rfl)⟩

lemma sessionToken_ne_symm :
    Symmetric (fun a b : SessionRec => a.token ≠ b.token) :=
  fun _ _ h e => h e.symm

/-- C6: a stored session whose `expires_at` is at or before the current
time is invisible to `GetUserSession` (which returns the
`sql.ErrNoRows`-equivalent `notFound`), so the session-path authenticator
attaches no user for its token. -/
theorem C6_expired_session_never_resolves :
    ∀ (db : Db) (now : Int) (tok : String) (s : SessionRec),
      SessionTokensUnique db → s ∈ db.sessions → s.token = tok →
      s.expiresAt ≤ now →
      GetUserSession db now tok = .error .notFound ∧
        SessionAuth db now (some tok) = .next none := by
  intro db now tok s huniq hmem htok hexp
  have hfind : db.sessions.find?
      (fun s' => s'.token == tok && decide (now < s'.expiresAt)) = none := by
    rw [List.find?_eq_none]
    intro s' hs' hc
    simp only [Bool.and_eq_true, beq_iff_eq, decide_eq_true_eq] at hc
    by_cases hss : s' = s
    · subst hss
      exact absurd hc.2 (not_lt.mpr hexp)
    · have hne := huniq.forall sessionToken_ne_symm hs' hmem hss
      exact hne (hc.1.trans htok.symm)
  have h1 : GetUserSession db now tok = .error .notFound := by
    unfold GetUserSession
    rw [hfind]
  refine ⟨h1, ?_⟩
  by_cases ht0 : tok = ""
  · subst ht0; simp [SessionAuth]
  · simp [SessionAuth, ht0, h1]

/-- C6 witness: the expired session `tok` at time 10. -/
theorem C6_witness :
    GetUserSession expiredSessionDb 10 "tok" = .error .notFound ∧
      SessionAuth expiredSessionDb 10 (some "tok") = .next none :=
  C6_expired_session_never_resolves expiredSessionDb 10 "tok"
    ⟨1, 7, "tok", 5⟩ (by decide) (by decide) (by decide) (by decide)

/-- C8: `RemoveRole` is idempotent — the second of two identical calls is
a no-op, and removing an assignment that does not exist leaves the store
unchanged (the operation is total, so both calls succeed; a SQL DELETE
matching no row is not an error). -/
theorem C8_removeRole_idempotent :
    ∀ (db : Db) (userId roleId : Int),
      RemoveRole (RemoveRole db userId roleId) userId roleId =
          RemoveRole db userId roleId ∧
        (¬ HasAssignment db userId roleId →
          RemoveRole db userId roleId = db) := by
  intro db u r
  constructor
  · simp [RemoveRole, List.filter_filter]
  · intro h
    have hself : db.userRoles.filter
        (fun a => !(a.userId == u && a.roleId == r)) = db.userRoles := by
      rw [List.filter_eq_self]
      intro a ha
      cases hu : a.userId == u with
      | false => simp [hu]
      | true =>
        cases hr : a.roleId == r with
        | false => simp [hu, hr]
        | true => exact absurd ⟨a, ha, eq_of_beq hu, eq_of_beq hr⟩ h
    unfold RemoveRole
    rw [hself]

/-- C8 witness: removing an absent assignment twice on the empty store. -/
theorem C8_witness :
    RemoveRole (RemoveRole emptyDb 1 2) 1 2 = RemoveRole emptyDb 1 2 ∧
      RemoveRole emptyDb 1 2 = emptyDb :=
  ⟨(C8_removeRole_idempotent emptyDb 1 2).1,
    (C8_removeRole_idempotent emptyDb 1 2).2 (by decide)⟩

lemma AssignRole_ok_spec {db db' : Db} {u rid : Int} {b : Option Int}
    (h : AssignRole db u rid b = .ok db') :
    db'.users = db.users ∧ db'.roles = db.roles ∧
      db'.sessions = db.sessions ∧
      db'.userRoles = db.userRoles ++ [⟨u, rid, b⟩] ∧
      (db.userRoles.any fun a => a.userId == u && a.roleId == rid) = false := by
  unfold AssignRole at h
  by_cases h1 : (db.userRoles.any fun a => a.userId == u && a.roleId == rid)
      = true
  · rw [if_pos h1] at h
    simp at h
  · rw [if_neg h1] at h
    by_cases h2 : ((db.users.any fun v => v.id == u) &&
        (db.roles.any fun r => r.id == rid)) = true
    · rw [if_pos h2, Except.ok.injEq] at h
      subst h
      exact ⟨rfl, rfl, rfl, rfl, by simpa using h1⟩
    · rw [if_neg h2] at h
      simp at h

lemma AssignRole_dup {db : Db} {u rid : Int} (b : Option Int)
    (h : HasAssignment db u rid) :
    AssignRole db u rid b = .error .uniqueViolation := by
  obtain ⟨a, ha, hu, hr⟩ := h
  unfold AssignRole
  rw [if_pos]
  exact List.any_eq_true.mpr ⟨a, ha, by simp [hu, hr]⟩

lemma count_filter_roles (roles : List Role) (r : Role) (rid : Int) :
    ((roles.filter fun x => x.id == rid).count r) =
      if r.id = rid then roles.count r else 0 := by
  by_cases h : r.id = rid
  · rw [if_pos h]
    exact List.count_filter (by simp [h])
  · rw [if_neg h, List.count_eq_zero]
    intro hc
    have h2 := (List.mem_filter.mp hc).2
    simp at h2
    exact h h2

lemma rolesNodup {db : Db} (hwf : RolesWf db) : db.roles.Nodup :=
  hwf.imp (fun hab he => hab.1 (congrArg Role.id he))

lemma count_getUserRoles (db : Db) (u : Int) (r : Role) :
    (GetUserRoles db u).count r =
      ((db.userRoles.filter fun a => a.userId == u).flatMap
          (fun a => db.roles.filter fun x => x.id == a.roleId)).count r := by
  unfold GetUserRoles
  exact (List.mergeSort_perm _ _).count_eq r

/-- C7: assigning an already-assigned `(user, role)` pair hits the
`UNIQUE(user_id, role_id)` constraint — a `uniqueViolation`, i.e. a
Conflict distinguishable from `notFound` and `fkViolation` — and carries
no state change, so after a successful `AssignRole` followed by a second
identical call, `GetUserRoles` still returns the role exactly once. -/
theorem C7_assignRole_conflict :
    ∀ (db db' : Db) (u : Int) (r : Role) (b b' : Option Int),
      RolesWf db → r ∈ db.roles →
      AssignRole db u r.id b = .ok db' →
      AssignRole db' u r.id b' = .error .uniqueViolation ∧
        (GetUserRoles db' u).count r = 1 := by
  intro db db' u r b b' hwf hr h
  obtain ⟨hus, hrs, hss, hur, hdup⟩ := AssignRole_ok_spec h
  have hconf : AssignRole db' u r.id b' = .error .uniqueViolation := by
    apply AssignRole_dup
    refine ⟨⟨u, r.id, b⟩, ?_, rfl, rfl⟩
    rw [hur]
    exact List.mem_append_right _ (List.mem_singleton.mpr rfl)
  refine ⟨hconf, ?_⟩
  rw [count_getUserRoles, hur, hrs, List.filter_append]
  have hnew : (List.filter (fun a => a.userId == u)
      ([⟨u, r.id, b⟩] : List Assignment)) = [⟨u, r.id, b⟩] := by simp
  rw [hnew, List.flatMap_append, List.count_append]
  have hz : ((db.userRoles.filter fun a => a.userId == u).flatMap
      (fun a => db.roles.filter fun x => x.id == a.roleId)).count r = 0 := by
    rw [List.count_flatMap]
    apply List.sum_eq_zero
    intro x hx
    rw [List.mem_map] at hx
    obtain ⟨a, ha, hax⟩ := hx
    have haa := List.mem_filter.mp ha
    have hne : ¬ (r.id = a.roleId) := by
      intro he
      have hc : (db.userRoles.any fun a' =>
          a'.userId == u && a'.roleId == r.id) = true :=
        List.any_eq_true.mpr ⟨a, haa.1, by simp [eq_of_beq haa.2, he.symm]⟩
      rw [hdup] at hc
      cases hc
    rw [← hax]
    simp only [Function.comp_apply]
    rw [count_filter_roles, if_neg hne]
  rw [hz]
  have hsingle : ((([⟨u, r.id, b⟩] : List Assignment)).flatMap
      (fun a => db.roles.filter fun x => x.id == a.roleId)).count r =
        (db.roles.filter fun x => x.id == r.id).count r := by
    simp
  rw [hsingle, count_filter_roles, if_pos rfl]
  exact Nat.zero_add _ ▸ List.count_eq_one_of_mem (rolesNodup hwf) hr

/-- C7 witness: user 1 and role 5 of `conflictDb`. -/
theorem C7_witness :
    AssignRole conflictDb' 1 conflictRole.id none = .error .uniqueViolation ∧
      (GetUserRoles conflictDb' 1).count conflictRole = 1 :=
  C7_assignRole_conflict conflictDb conflictDb' 1 conflictRole none none
    (by decide) (by decide) rfl

/-- C10: on a first-time federated login — the token verifies, no local
user matches the subject id — where `CreateUser` fails, `LoadUserFromToken`
still attaches the in-memory, unpersisted user record (internal id `0`,
empty role list) to the request context rather than proceeding
unauthenticated, and leaves the store unchanged. -/
theorem C10_createUser_failure_attaches_stub :
    ∀ (db : Db) (v : String) (verify : String → Option KeycloakClaims)
      (claims : KeycloakClaims) (e e' : DbErr),
      v ≠ "" → verify v = some claims →
      GetUserByKeycloakID db claims.sub = .error e →
      CreateUser db (newUserFromClaims claims) = .error e' →
      LoadUserFromToken db (some v) verify =
          (.next (some ((newUserFromClaims claims).withRoles [])), db) ∧
        ((newUserFromClaims claims).withRoles []).id = 0 ∧
        ((newUserFromClaims claims).withRoles []).roles = [] := by
  intro db v verify claims e e' hv hver hkc hcu
  refine ⟨?_, rfl, rfl⟩
  simp [LoadUserFromToken, hv, hver, hkc, hcu]

/-- C10 witness: subject `kc-new` is unknown to `clashDb` but the
username `bob` is taken, so `CreateUser` conflicts and the stub user is
attached. -/
theorem C10_witness :
    LoadUserFromToken clashDb (some "tok") (fun _ => some stubClaims) =
        (.next (some ((newUserFromClaims stubClaims).withRoles [])),
          clashDb) ∧
      ((newUserFromClaims stubClaims).withRoles []).id = 0 ∧
      ((newUserFromClaims stubClaims).withRoles []).roles = [] :=
  C10_createUser_failure_attaches_stub clashDb "tok"
    (fun _ => some stubClaims) stubClaims .notFound .uniqueViolation
    (by decide) rfl rfl rfl

lemma rolesNe_symm :
    Symmetric (fun a b : Role => a.id ≠ b.id ∧ a.name ≠ b.name) :=
  fun _ _ h => ⟨fun e => h.1 e.symm, fun e => h.2 e.symm⟩

lemma roles_id_inj {db : Db} (hwf : RolesWf db) {r r' : Role}
    (h : r ∈ db.roles) (h' : r' ∈ db.roles) (hid : r.id = r'.id) : r = r' := by
  by_contra hne
  exact (hwf.forall rolesNe_symm h h' hne).1 hid

lemma GetRoleByName_ok_mem {db : Db} {n : String} {r : Role}
    (h : GetRoleByName db n = .ok r) : r ∈ db.roles ∧ r.name = n := by
  unfold GetRoleByName at h
  cases hf : db.roles.find? (fun x => x.name == n) with
  | some r' =>
    rw [hf, Except.ok.injEq] at h
    subst h
    exact ⟨List.mem_of_find?_eq_some hf, by simpa using List.find?_some hf⟩
  | none =>
    rw [hf] at h
    simp at h

lemma GetRoleByName_of_mem {db : Db} (hwf : RolesWf db) {r : Role}
    (hr : r ∈ db.roles) {n : String} (hn : r.name = n) :
    GetRoleByName db n = .ok r := by
  unfold GetRoleByName
  cases hf : db.roles.find? (fun x => x.name == n) with
  | none =>
    rw [List.find?_eq_none] at hf
    exact absurd (by simp [hn]) (hf r hr)
  | some r' =>
    have hmem' := List.mem_of_find?_eq_some hf
    have hname' : r'.name = n := by simpa using List.find?_some hf
    have he : r' = r := by
      by_contra hne
      exact (hwf.forall rolesNe_symm hmem' hr hne).2 (hname'.trans hn.symm)
    rw [he]

lemma GetRoleByName_congr {db1 db2 : Db} (h : db1.roles = db2.roles)
    (n : String) : GetRoleByName db1 n = GetRoleByName db2 n := by
  unfold GetRoleByName
  rw [h]

lemma nameIdOf_congr {db1 db2 : Db} (h : db1.roles = db2.roles)
    (n : String) : nameIdOf db1 n = nameIdOf db2 n := by
  unfold nameIdOf
  rw [GetRoleByName_congr h]

lemma nameIdOf_some {db : Db} {n : String} {rid : Int}
    (h : nameIdOf db n = some rid) :
    ∃ r ∈ db.roles, r.name = n ∧ r.id = rid := by
  unfold nameIdOf at h
  cases hg : GetRoleByName db n with
  | ok r =>
    rw [hg] at h
    simp [Except.toOption] at h
    obtain ⟨hm, hn2⟩ := GetRoleByName_ok_mem hg
    exact ⟨r, hm, hn2, h⟩
  | error e =>
    rw [hg] at h
    simp [Except.toOption] at h

lemma nameIdOf_eq_of_mem {db : Db} (hwf : RolesWf db) {r : Role}
    (hr : r ∈ db.roles) {n : String} (hn : r.name = n) :
    nameIdOf db n = some r.id := by
  unfold nameIdOf
  rw [GetRoleByName_of_mem hwf hr hn]
  rfl

lemma HasAssignment_removeRole (db : Db) (u rid : Int) (u' rid' : Int) :
    HasAssignment (RemoveRole db u rid) u' rid' ↔
      HasAssignment db u' rid' ∧ ¬(u' = u ∧ rid' = rid) := by
  unfold HasAssignment RemoveRole
  simp only [List.mem_filter]
  constructor
  · rintro ⟨a, ⟨ha, hpa⟩, hu, hr⟩
    refine ⟨⟨a, ha, hu, hr⟩, ?_⟩
    rintro ⟨rfl, rfl⟩
    simp [hu, hr] at hpa
  · rintro ⟨⟨a, ha, hu, hr⟩, hne⟩
    refine ⟨a, ⟨ha, ?_⟩, hu, hr⟩
    cases hxu : a.userId == u with
    | false => simp [hxu]
    | true =>
      cases hxr : a.roleId == rid with
      | false => simp [hxu, hxr]
      | true =>
        exact absurd ⟨hu.symm.trans (eq_of_beq hxu),
          hr.symm.trans (eq_of_beq hxr)⟩ hne

lemma removeRoleByName_tables (db : Db) (u : Int) (n : String) :
    (removeRoleByName db u n).roles = db.roles ∧
      (removeRoleByName db u n).users = db.users ∧
      (removeRoleByName db u n).sessions = db.sessions := by
  unfold removeRoleByName
  cases GetRoleByName db n <;> exact ⟨rfl, rfl, rfl⟩

lemma HasAssignment_removeRoleByName (db : Db) (u : Int) (n : String)
    (u' rid : Int) :
    HasAssignment (removeRoleByName db u n) u' rid ↔
      HasAssignment db u' rid ∧ ¬(u' = u ∧ nameIdOf db n = some rid) := by
  cases h : GetRoleByName db n with
  | ok r =>
    have e1 : removeRoleByName db u n = RemoveRole db u r.id := by
      unfold removeRoleByName
      rw [h]
    have hn : nameIdOf db n = some r.id := by
      unfold nameIdOf
      rw [h]
      rfl
    rw [e1, HasAssignment_removeRole, hn]
    simp only [Option.some.injEq]
    constructor <;>
      exact fun ⟨h1, h2⟩ => ⟨h1, fun hx => h2 ⟨hx.1, hx.2.symm⟩⟩
  | error e =>
    have e1 : removeRoleByName db u n = db := by
      unfold removeRoleByName
      rw [h]
    have hn : nameIdOf db n = none := by
      unfold nameIdOf
      rw [h]
      rfl
    rw [e1, hn]
    simp

lemma removeLoop_spec (u : Int) :
    ∀ (names : List String) (db : Db),
      (names.foldl (fun d n => removeRoleByName d u n) db).roles = db.roles ∧
        (names.foldl (fun d n => removeRoleByName d u n) db).users =
          db.users ∧
        (names.foldl (fun d n => removeRoleByName d u n) db).sessions =
          db.sessions ∧
        ∀ u' rid,
          HasAssignment (names.foldl (fun d n => removeRoleByName d u n) db)
              u' rid ↔
            HasAssignment db u' rid ∧
              ¬(u' = u ∧ ∃ n ∈ names, nameIdOf db n = some rid) := by
  intro names
  induction names with
  | nil => exact fun db => ⟨rfl, rfl, rfl, fun u' rid => by simp⟩
  | cons n ns ih =>
    intro db
    obtain ⟨h1, h2, h3, h4⟩ := ih (removeRoleByName db u n)
    obtain ⟨t1, t2, t3⟩ := removeRoleByName_tables db u n
    rw [List.foldl_cons]
    refine ⟨h1.trans t1, h2.trans t2, h3.trans t3, ?_⟩
    intro u' rid
    rw [h4 u' rid, HasAssignment_removeRoleByName]
    have hcongr : ∀ m, nameIdOf (removeRoleByName db u n) m = nameIdOf db m :=
      fun m => nameIdOf_congr t1 m
    simp only [hcongr]
    constructor
    · rintro ⟨⟨hd, hn1⟩, hn2⟩
      refine ⟨hd, ?_⟩
      rintro ⟨hu, m, hm, hid⟩
      rcases List.mem_cons.mp hm with rfl | hm'
      · exact hn1 ⟨hu, hid⟩
      · exact hn2 ⟨hu, m, hm', hid⟩
    · rintro ⟨hd, hno⟩
      refine ⟨⟨hd, ?_⟩, ?_⟩
      · rintro ⟨hu, hid⟩
        exact hno ⟨hu, n, List.mem_cons_self n ns, hid⟩
      · rintro ⟨hu, m, hm, hid⟩
        exact hno ⟨hu, m, List.mem_cons_of_mem n hm, hid⟩

/-- `removeAllMappedRoles` folds over the values of the role-mapping
table, which are exactly `appRoleNames`. -/
lemma removeAllMappedRoles_eq (db : Db) (u : Int) :
    removeAllMappedRoles db u =
      appRoleNames.foldl (fun d n => removeRoleByName d u n) db := rfl

lemma removePhase_spec (db : Db) (u : Int) :
    (removeAllMappedRoles db u).roles = db.roles ∧
      (removeAllMappedRoles db u).users = db.users ∧
      (removeAllMappedRoles db u).sessions = db.sessions ∧
      ∀ u' rid,
        HasAssignment (removeAllMappedRoles db u) u' rid ↔
          HasAssignment db u' rid ∧
            ¬(u' = u ∧ ∃ n ∈ appRoleNames, nameIdOf db n = some rid) := by
  rw [removeAllMappedRoles_eq]
  exact removeLoop_spec u appRoleNames db

lemma roleMapping_lookup (k : String) :
    roleMapping.lookup k = if k ∈ appRoleNames then some k else none := by
  by_cases h1 : k = "admin"
  · subst h1; decide
  by_cases h2 : k = "property_manager"
  · subst h2; decide
  by_cases h3 : k = "tenant"
  · subst h3; decide
  by_cases h4 : k = "viewer"
  · subst h4; decide
  have e1 : (k == "admin") = false := beq_eq_false_iff_ne.mpr h1
  have e2 : (k == "property_manager") = false := beq_eq_false_iff_ne.mpr h2
  have e3 : (k == "tenant") = false := beq_eq_false_iff_ne.mpr h3
  have e4 : (k == "viewer") = false := beq_eq_false_iff_ne.mpr h4
  simp [roleMapping, appRoleNames, List.lookup, e1, e2, e3, e4, h1, h2, h3, h4]

lemma roleMapping_lookup_some {k n : String}
    (h : roleMapping.lookup k = some n) : k ∈ appRoleNames ∧ n = k := by
  rw [roleMapping_lookup] at h
  by_cases hk : k ∈ appRoleNames
  · rw [if_pos hk] at h
    exact ⟨hk, (Option.some.inj h).symm⟩
  · rw [if_neg hk] at h
    simp at h

lemma mem_mappedAppRoles {n : String} {ks : List String} :
    n ∈ mappedAppRoles ks ↔ n ∈ appRoleNames ∧ n ∈ ks := by
  simp [mappedAppRoles, List.mem_filter]

lemma assignRoleStep_cases (u : Int) (s : Db × Nat) (k : String) :
    assignRoleStep u s k = s ∨
      ∃ n r db', roleMapping.lookup k = some n ∧
        GetRoleByName s.1 n = .ok r ∧
        AssignRole s.1 u r.id none = .ok db' ∧
        assignRoleStep u s k = (db', s.2 + 1) := by
  unfold assignRoleStep
  cases hl : roleMapping.lookup k with
  | none => exact Or.inl rfl
  | some n =>
    dsimp only
    cases hg : GetRoleByName s.1 n with
    | error e => exact Or.inl rfl
    | ok r =>
      dsimp only
      cases ha : AssignRole s.1 u r.id none with
      | error e => exact Or.inl rfl
      | ok db' => exact Or.inr ⟨n, r, db', rfl, hg, ha, rfl⟩

lemma assignLoop_spec (u : Int) :
    ∀ (ks : List String) (s : Db × Nat),
      (ks.foldl (assignRoleStep u) s).1.roles = s.1.roles ∧
        (ks.foldl (assignRoleStep u) s).1.users = s.1.users ∧
        (ks.foldl (assignRoleStep u) s).1.sessions = s.1.sessions ∧
        s.2 ≤ (ks.foldl (assignRoleStep u) s).2 ∧
        ((ks.foldl (assignRoleStep u) s).2 = s.2 →
          ks.foldl (assignRoleStep u) s = s) ∧
        ∃ extra,
          (ks.foldl (assignRoleStep u) s).1.userRoles =
              s.1.userRoles ++ extra ∧
            ∀ a ∈ extra, a.userId = u ∧
              ∃ k ∈ ks, ∃ n, roleMapping.lookup k = some n ∧
                nameIdOf s.1 n = some a.roleId := by
  intro ks
  induction ks with
  | nil =>
    exact fun s => ⟨rfl, rfl, rfl, le_refl _, fun _ => rfl, [], by simp,
      by simp⟩
  | cons k ks ih =>
    intro s
    rw [List.foldl_cons]
    rcases assignRoleStep_cases u s k with hstep |
      ⟨n, r, db', hl, hg, ha, hstep⟩
    · rw [hstep]
      obtain ⟨h1, h2, h3, h4, h5, extra, he, hex⟩ := ih s
      refine ⟨h1, h2, h3, h4, h5, extra, he, ?_⟩
      intro a hae
      obtain ⟨hu, k', hk', n', hl', hn'⟩ := hex a hae
      exact ⟨hu, k', List.mem_cons_of_mem _ hk', n', hl', hn'⟩
    · rw [hstep]
      obtain ⟨h1, h2, h3, h4, h5, extra, he, hex⟩ := ih (db', s.2 + 1)
      obtain ⟨ou, orl, os, our, -⟩ := AssignRole_ok_spec ha
      refine ⟨h1.trans orl, h2.trans ou, h3.trans os, ?_, ?_, ?_⟩
      · exact le_trans (Nat.le_succ _) h4
      · intro hc
        exact absurd (hc ▸ h4) (Nat.not_succ_le_self _)
      · refine ⟨⟨u, r.id, none⟩ :: extra, ?_, ?_⟩
        · rw [he, our, List.append_assoc, List.singleton_append]
        · intro a hae
          rcases List.mem_cons.mp hae with rfl | hae'
          · refine ⟨rfl, k, List.mem_cons_self k ks, n, hl, ?_⟩
            unfold nameIdOf
            rw [hg]
            rfl
          · obtain ⟨hu, k', hk', n', hl', hn'⟩ := hex a hae'
            exact ⟨hu, k', List.mem_cons_of_mem _ hk', n', hl',
              (nameIdOf_congr orl n').symm.trans hn'⟩

lemma assignLoop_mono (u : Int) (ks : List String) (s : Db × Nat)
    (u' rid : Int) (h : HasAssignment s.1 u' rid) :
    HasAssignment (ks.foldl (assignRoleStep u) s).1 u' rid := by
  obtain ⟨-, -, -, -, -, extra, he, -⟩ := assignLoop_spec u ks s
  obtain ⟨a, ha, h1, h2⟩ := h
  exact ⟨a, by rw [he]; exact List.mem_append_left _ ha, h1, h2⟩

lemma assignLoop_ensures (u : Int) :
    ∀ (ks : List String) (s : Db × Nat) (k n : String) (rid : Int),
      k ∈ ks → roleMapping.lookup k = some n →
      nameIdOf s.1 n = some rid → UserIdExists s.1 u →
      HasAssignment (ks.foldl (assignRoleStep u) s).1 u rid := by
  intro ks
  induction ks with
  | nil =>
    intro s k n rid hk
    simp at hk
  | cons k0 ks ih =>
    intro s k n rid hk hl hn hexists
    rw [List.foldl_cons]
    rcases List.mem_cons.mp hk with rfl | hk'
    · obtain ⟨r, hg, hrid⟩ : ∃ r, GetRoleByName s.1 n = .ok r ∧
          r.id = rid := by
        unfold nameIdOf at hn
        cases hgg : GetRoleByName s.1 n with
        | ok r =>
          rw [hgg] at hn
          simp [Except.toOption] at hn
          exact ⟨r, rfl, hn⟩
        | error e =>
          rw [hgg] at hn
          simp [Except.toOption] at hn
      have hstep : ∃ s', assignRoleStep u s k = s' ∧
          HasAssignment s'.1 u rid := by
        unfold assignRoleStep
        rw [hl]
        dsimp only
        rw [hg]
        dsimp only
        cases ha : AssignRole s.1 u r.id none with
        | ok db' =>
          obtain ⟨-, -, -, our, -⟩ := AssignRole_ok_spec ha
          refine ⟨(db', s.2 + 1), rfl, ⟨u, r.id, none⟩, ?_, rfl, hrid⟩
          rw [our]
          exact List.mem_append_right _ (List.mem_singleton.mpr rfl)
        | error e =>
          refine ⟨s, rfl, ?_⟩
          unfold AssignRole at ha
          by_cases hdup : (s.1.userRoles.any fun a =>
              a.userId == u && a.roleId == r.id) = true
          · obtain ⟨a, haa, hab⟩ := List.any_eq_true.mp hdup
            simp only [Bool.and_eq_true, beq_iff_eq] at hab
            exact ⟨a, haa, hab.1, hab.2.trans hrid⟩
          · rw [if_neg hdup] at ha
            have huser : (s.1.users.any fun v => v.id == u) = true := by
              obtain ⟨v, hv, hvid⟩ := hexists
              exact List.any_eq_true.mpr ⟨v, hv, by simp [hvid]⟩
            have hrole : (s.1.roles.any fun x => x.id == r.id) = true := by
              have hrm := GetRoleByName_ok_mem hg
              exact List.any_eq_true.mpr ⟨r, hrm.1, by simp⟩
            rw [if_pos (by rw [huser, hrole]; rfl)] at ha
            simp at ha
      obtain ⟨s', hs', hhas⟩ := hstep
      rw [hs']
      exact assignLoop_mono u ks s' u rid hhas
    · have htab : (assignRoleStep u s k0).1.roles = s.1.roles ∧
          (assignRoleStep u s k0).1.users = s.1.users := by
        rcases assignRoleStep_cases u s k0 with h |
          ⟨n', r', db', hl', hg', ha', h⟩
        · rw [h]
          exact ⟨rfl, rfl⟩
        · rw [h]
          obtain ⟨hu2, hr2, -, -, -⟩ := AssignRole_ok_spec ha'
          exact ⟨hr2, hu2⟩
      refine ih (assignRoleStep u s k0) k n rid hk' hl ?_ ?_
      · rw [nameIdOf_congr htab.1]
        exact hn
      · obtain ⟨v, hv, hvid⟩ := hexists
        exact ⟨v, by rw [htab.2]; exact hv, hvid⟩

lemma assignLoop_unmapped (u : Int) :
    ∀ (ks : List String) (s : Db × Nat),
      (∀ k ∈ ks, roleMapping.lookup k = none) →
      ks.foldl (assignRoleStep u) s = s := by
  intro ks
  induction ks with
  | nil => exact fun s _ => rfl
  | cons k ks ih =>
    intro s h
    rw [List.foldl_cons]
    have hs : assignRoleStep u s k = s := by
      unfold assignRoleStep
      rw [h k (List.mem_cons_self k ks)]
    rw [hs]
    exact ih s (fun k' hk' => h k' (List.mem_cons_of_mem _ hk'))

lemma assignMappedRoles_eq (db : Db) (u : Int) (ks : List String) :
    assignMappedRoles db u ks = ks.foldl (assignRoleStep u) (db, 0) := rfl

/-- C2: when the realm-role list maps to a non-empty subset `S` of the
four application roles, the sync — over any prior assignment state, i.e.
on a first or repeat login — leaves the user's assignments over those
four roles exactly equal to `S`.  The hypotheses are the store invariants
under which every role-store call succeeds: the `roles` table respects
its constraints, the four roles are seeded, and the user row exists. -/
theorem C2_sync_exact_roles :
    ∀ (db : Db) (u : Int) (kcRoles : List String),
      RolesWf db → RolesSeeded db → UserIdExists db u →
      mappedAppRoles kcRoles ≠ [] →
      ∀ n ∈ appRoleNames, ∀ r ∈ db.roles, r.name = n →
        (HasAssignment (assignRolesFromKeycloak db u kcRoles) u r.id ↔
          n ∈ mappedAppRoles kcRoles) := by
  intro db u kcRoles hwf hseed huser hne n hn r hr hrn
  obtain ⟨r1, r2, r3, r4⟩ := removePhase_spec db u
  set db1 := removeAllMappedRoles db u with hdb1
  have huser1 : UserIdExists db1 u := by
    obtain ⟨v, hv, hvid⟩ := huser
    exact ⟨v, by rw [r2]; exact hv, hvid⟩
  have hclean : ∀ m ∈ appRoleNames, ∀ r' ∈ db.roles, r'.name = m →
      ¬ HasAssignment db1 u r'.id := by
    intro m hm r' hr' hrm hcontra
    rw [r4] at hcontra
    exact hcontra.2 ⟨rfl, m, hm, nameIdOf_eq_of_mem hwf hr' hrm⟩
  obtain ⟨n0, hn0four, hn0kc⟩ : ∃ n0 ∈ appRoleNames, n0 ∈ kcRoles := by
    obtain ⟨n0, hn0⟩ := List.exists_mem_of_ne_nil _ hne
    rw [mem_mappedAppRoles] at hn0
    exact ⟨n0, hn0.1, hn0.2⟩
  obtain ⟨r0, hr0, hr0n⟩ := hseed n0 hn0four
  have hens : HasAssignment (kcRoles.foldl (assignRoleStep u) (db1, 0)).1
      u r0.id := by
    refine assignLoop_ensures u kcRoles (db1, 0) n0 n0 r0.id hn0kc ?_ ?_
      huser1
    · rw [roleMapping_lookup, if_pos hn0four]
    · exact (nameIdOf_congr r1 n0).trans (nameIdOf_eq_of_mem hwf hr0 hr0n)
  have hcnt : (kcRoles.foldl (assignRoleStep u) (db1, 0)).2 ≠ 0 := by
    intro h0
    obtain ⟨-, -, -, -, h5, -⟩ := assignLoop_spec u kcRoles (db1, 0)
    rw [h5 h0] at hens
    exact hclean n0 hn0four r0 hr0 hr0n hens
  have hfinal : assignRolesFromKeycloak db u kcRoles =
      (kcRoles.foldl (assignRoleStep u) (db1, 0)).1 := by
    unfold assignRolesFromKeycloak
    rw [← hdb1, assignMappedRoles_eq, if_neg (by simpa using hcnt)]
  rw [hfinal]
  obtain ⟨-, -, -, -, -, extra, he, hex⟩ := assignLoop_spec u kcRoles (db1, 0)
  constructor
  · rintro ⟨a, ha, hau, har⟩
    rw [he] at ha
    rcases List.mem_append.mp ha with ha1 | ha2
    · exact absurd ⟨a, ha1, hau, har⟩ (hclean n hn r hr hrn)
    · obtain ⟨-, k, hk, m, hlk, hm⟩ := hex a ha2
      obtain ⟨hk4, hmk⟩ := roleMapping_lookup_some hlk
      rw [hmk] at hm
      rw [har] at hm
      have hm' : nameIdOf db k = some r.id := by
        rw [← nameIdOf_congr r1 k]
        exact hm
      obtain ⟨rk, hrk, hrkn, hrkid⟩ := nameIdOf_some hm'
      have hrkr : rk = r := roles_id_inj hwf hrk hr hrkid
      rw [mem_mappedAppRoles]
      refine ⟨hn, ?_⟩
      have hkn : k = n := by rw [← hrkn, hrkr, hrn]
      exact hkn ▸ hk
  · intro hmem
    rw [mem_mappedAppRoles] at hmem
    refine assignLoop_ensures u kcRoles (db1, 0) n n r.id hmem.2 ?_ ?_ huser1
    · rw [roleMapping_lookup, if_pos hn]
    · exact (nameIdOf_congr r1 n).trans (nameIdOf_eq_of_mem hwf hr hrn)

/-- C2 witness: syncing realm roles `["admin"]` for user 7 of `syncDb`
(who previously held `tenant`) assigns role id 1 (`admin`). -/
theorem C2_witness :
    HasAssignment (assignRolesFromKeycloak syncDb 7 ["admin"]) 7 1 ↔
      "admin" ∈ mappedAppRoles ["admin"] :=
  C2_sync_exact_roles syncDb 7 ["admin"] (by decide) (by decide) (by decide)
    (by decide) "admin" (by decide)
    { id := 1, name := "admin", displayName := "Administrator",
      permissions := ["users.create"] } (by decide) (by decide)

/-- C3: when the realm-role list maps to none of the four application
roles (empty, or only unrecognized names), the sync leaves the user with
exactly the `tenant` role among the four — the authenticated user is
never left with zero roles. -/
theorem C3_sync_default_tenant :
    ∀ (db : Db) (u : Int) (kcRoles : List String),
      RolesWf db → RolesSeeded db → UserIdExists db u →
      mappedAppRoles kcRoles = [] →
      ∀ n ∈ appRoleNames, ∀ r ∈ db.roles, r.name = n →
        (HasAssignment (assignRolesFromKeycloak db u kcRoles) u r.id ↔
          n = "tenant") := by
  intro db u kcRoles hwf hseed huser hempty n hn r hr hrn
  obtain ⟨r1, r2, r3, r4⟩ := removePhase_spec db u
  set db1 := removeAllMappedRoles db u with hdb1
  have hclean : ∀ m ∈ appRoleNames, ∀ r' ∈ db.roles, r'.name = m →
      ¬ HasAssignment db1 u r'.id := by
    intro m hm r' hr' hrm hcontra
    rw [r4] at hcontra
    exact hcontra.2 ⟨rfl, m, hm, nameIdOf_eq_of_mem hwf hr' hrm⟩
  have hunmapped : ∀ k ∈ kcRoles, roleMapping.lookup k = none := by
    intro k hk
    rw [roleMapping_lookup, if_neg]
    intro hk4
    have hmm : k ∈ mappedAppRoles kcRoles := mem_mappedAppRoles.mpr ⟨hk4, hk⟩
    rw [hempty] at hmm
    simp at hmm
  have hloop : kcRoles.foldl (assignRoleStep u) (db1, 0) = (db1, 0) :=
    assignLoop_unmapped u kcRoles (db1, 0) hunmapped
  have htenant4 : "tenant" ∈ appRoleNames := by decide
  obtain ⟨rt, hrt, hrtn⟩ := hseed "tenant" htenant4
  have hgt : GetRoleByName db1 "tenant" = .ok rt :=
    (GetRoleByName_congr r1 "tenant").trans (GetRoleByName_of_mem hwf hrt hrtn)
  have hnodup : ¬ HasAssignment db1 u rt.id :=
    hclean "tenant" htenant4 rt hrt hrtn
  have hassign : AssignRole db1 u rt.id none =
      .ok { db1 with userRoles := db1.userRoles ++ [⟨u, rt.id, none⟩] } := by
    unfold AssignRole
    rw [if_neg ?hdup, if_pos ?hfk]
    case hdup =>
      intro hany
      obtain ⟨a, ha, hab⟩ := List.any_eq_true.mp hany
      simp only [Bool.and_eq_true, beq_iff_eq] at hab
      exact hnodup ⟨a, ha, hab.1, hab.2⟩
    case hfk =>
      have hu : (db1.users.any fun v => v.id == u) = true := by
        obtain ⟨v, hv, hvid⟩ := huser
        exact List.any_eq_true.mpr ⟨v, by rw [r2]; exact hv, by simp [hvid]⟩
      have hx : (db1.roles.any fun x => x.id == rt.id) = true := by
        refine List.any_eq_true.mpr ⟨rt, ?_, by simp⟩
        rw [r1]
        exact hrt
      rw [hu, hx]
      rfl
  have hfinal : assignRolesFromKeycloak db u kcRoles =
      { db1 with userRoles := db1.userRoles ++ [⟨u, rt.id, none⟩] } := by
    unfold assignRolesFromKeycloak
    rw [← hdb1, assignMappedRoles_eq, hloop]
    have hcond : (((db1, 0) : Db × Nat).2 == 0) = true := rfl
    rw [if_pos hcond]
    dsimp only
    rw [hgt]
    dsimp only
    rw [hassign]
  rw [hfinal]
  constructor
  · rintro ⟨a, ha, hau, har⟩
    rcases List.mem_append.mp ha with h1 | h1
    · exact absurd ⟨a, h1, hau, har⟩ (hclean n hn r hr hrn)
    · rw [List.mem_singleton] at h1
      subst h1
      have hre : rt = r := roles_id_inj hwf hrt hr har
      rw [← hrn, ← hre, hrtn]
  · intro hnt
    have hre : r = rt := by
      by_contra hne
      exact (hwf.forall rolesNe_symm hr hrt hne).2
        ((hrn.trans hnt).trans hrtn.symm)
    refine ⟨⟨u, rt.id, none⟩,
      List.mem_append_right _ (List.mem_singleton.mpr rfl), rfl, ?_⟩
    rw [hre]

/-- C3 witness: syncing the unrecognized realm role list
`["unmapped_role"]` for user 7 of `syncDb` assigns role id 3
(`tenant`). -/
theorem C3_witness :
    HasAssignment (assignRolesFromKeycloak syncDb 7 ["unmapped_role"]) 7 3 ↔
      "tenant" = "tenant" :=
  C3_sync_default_tenant syncDb 7 ["unmapped_role"] (by decide) (by decide)
    (by decide) (by decide) "tenant" (by decide)
    { id := 3, name := "tenant", displayName := "Tenant",
      permissions := ["profile.read"] } (by decide) (by decide)

/-- C9 (frame): the sync removes and re-adds only assignments of the four
fixed role names; an assignment whose role id belongs to no role named
`admin`, `property_manager`, `tenant` or `viewer` is untouched, for every
user. -/
theorem C9_sync_frame :
    ∀ (db : Db) (u : Int) (kcRoles : List String) (rid : Int),
      (∀ r ∈ db.roles, r.name ∈ appRoleNames → r.id ≠ rid) →
      ∀ u' : Int,
        HasAssignment (assignRolesFromKeycloak db u kcRoles) u' rid ↔
          HasAssignment db u' rid := by
  intro db u kcRoles rid hout u'
  obtain ⟨r1, r2, r3, r4⟩ := removePhase_spec db u
  set db1 := removeAllMappedRoles db u with hdb1
  have hnid : ∀ m ∈ appRoleNames, nameIdOf db m ≠ some rid := by
    intro m hm hc
    obtain ⟨r', hr', hrn', hrid'⟩ := nameIdOf_some hc
    exact hout r' hr' (hrn' ▸ hm) hrid'
  have hrm : HasAssignment db1 u' rid ↔ HasAssignment db u' rid := by
    rw [r4]
    constructor
    · exact fun h => h.1
    · intro h
      refine ⟨h, ?_⟩
      rintro ⟨-, m, hm, hc⟩
      exact hnid m hm hc
  obtain ⟨a1, a2, a3, a4, a5, extra, he, hex⟩ :=
    assignLoop_spec u kcRoles (db1, 0)
  have hasg : HasAssignment (kcRoles.foldl (assignRoleStep u) (db1, 0)).1
      u' rid ↔ HasAssignment db1 u' rid := by
    constructor
    · rintro ⟨a, ha, hau, har⟩
      rw [he] at ha
      rcases List.mem_append.mp ha with h1 | h1
      · exact ⟨a, h1, hau, har⟩
      · obtain ⟨-, k, hk, m, hlk, hm⟩ := hex a h1
        obtain ⟨hk4, hmk⟩ := roleMapping_lookup_some hlk
        rw [hmk] at hm
        rw [har] at hm
        have hmd : nameIdOf db k = some rid := by
          rw [← nameIdOf_congr r1 k]
          exact hm
        exact absurd hmd (hnid k hk4)
    · exact fun h => assignLoop_mono u kcRoles (db1, 0) u' rid h
  unfold assignRolesFromKeycloak
  rw [← hdb1, assignMappedRoles_eq]
  by_cases hc : (kcRoles.foldl (assignRoleStep u) (db1, 0)).2 = 0
  · rw [if_pos (by simp [hc])]
    cases hgt : GetRoleByName
        (kcRoles.foldl (assignRoleStep u) (db1, 0)).1 "tenant" with
    | error e => exact hasg.trans hrm
    | ok rt =>
      dsimp only
      cases hat : AssignRole
          (kcRoles.foldl (assignRoleStep u) (db1, 0)).1 u rt.id none with
      | error e => exact hasg.trans hrm
      | ok db3 =>
        dsimp only
        obtain ⟨-, -, -, hur3, -⟩ := AssignRole_ok_spec hat
        have a1' : (kcRoles.foldl (assignRoleStep u) (db1, 0)).1.roles =
            db1.roles := a1
        have hrtmem : rt ∈ db.roles ∧ rt.name = "tenant" := by
          have hx := GetRoleByName_ok_mem hgt
          refine ⟨?_, hx.2⟩
          have h1 := hx.1
          rw [a1', r1] at h1
          exact h1
        have hrtne : rt.id ≠ rid :=
          hout rt hrtmem.1 (by rw [hrtmem.2]; decide)
        constructor
        · rintro ⟨a, ha, hau, har⟩
          rw [hur3] at ha
          rcases List.mem_append.mp ha with h1 | h1
          · exact (hasg.trans hrm).mp ⟨a, h1, hau, har⟩
          · rw [List.mem_singleton] at h1
            subst h1
            exact absurd har hrtne
        · intro h
          obtain ⟨a, ha, hau, har⟩ := (hasg.trans hrm).mpr h
          exact ⟨a, by rw [hur3]; exact List.mem_append_left _ ha, hau, har⟩
  · rw [if_neg (by simpa using hc)]
    exact hasg.trans hrm

/-- C9 witness: syncing `["admin"]` for user 7 of `syncDb` leaves the
custom role-id-9 assignment alone. -/
theorem C9_witness :
    HasAssignment (assignRolesFromKeycloak syncDb 7 ["admin"]) 7 9 ↔
      HasAssignment syncDb 7 9 :=
  C9_sync_frame syncDb 7 ["admin"] 9 (by decide) 7

end FirePmaas
